import Mathlib

/-
  Verification of the VehicleTracker ingestion-reconciliation pipeline.

  Shallow embedding of the Python sources:
    - samsara_normalizer.py   (category ranking, dedupe, location extraction)
    - vehicles_to_supabase_sync.py (freshness filter, sync orchestrator)
    - cat_client.py           (CAT record normalization)
    - supabase_db.py          (vehicle identity / position store)
    - samsara_to_supabase_sync.py (nearest-job matching)
    - samsara_client.py       (fetch composition)

  Modelling conventions:
    - JSON payload values are modelled by the inductive `JVal`; Python `None`
      and an absent dictionary key both read back as `JVal.none_` via `dget`,
      matching `dict.get`'s default.
    - Numeric payload fields are modelled as exact rationals.  String-encoded
      numbers (accepted by Python `float`) are not modelled; the claims under
      consideration quantify over numeric payloads only.
    - UTC instants are modelled as integer counts of seconds; `timedelta
      (hours=h)` is `h * 3600` seconds.
    - The external `dateutil` parser is modelled as an opaque parameter
      `parse : String -> Option Int` (`none` = the parser raises).
    - Network fetches are modelled by their outcome, an `Except String`
      value: `.error` models a raised requests/auth exception.
-/

namespace VehicleTracker

/-- A JSON-like Python value as it appears in provider payloads.
`none_` models Python `None`. -/
inductive JVal where
  | none_ : JVal
  | bool : Bool → JVal
  | num : ℚ → JVal
  | str : String → JVal
  | dict : List (String × JVal) → JVal
  | list : List JVal → JVal

/-- Python truthiness of a payload value (`None`, `0`, `""`, `{}`, `[]`,
`False` are falsy). -/
def truthy : JVal → Bool
  | .none_ => false
  | .bool b => b
  | .num q => q ≠ 0
  | .str s => s ≠ ""
  | .dict f => !f.isEmpty
  | .list l => !l.isEmpty

/-- Python `a or b`: returns `a` when truthy, else `b`. -/
def pyOr (a b : JVal) : JVal := if truthy a then a else b

/-- First binding of key `k` in a Python dict. -/
def dlookup : List (String × JVal) → String → Option JVal
  | [], _ => none
  | (k', v) :: rest, k => if k' = k then some v else dlookup rest k

/-- Python `d.get(k)`: the bound value, or `None` when the key is absent. -/
def dget (d : List (String × JVal)) (k : String) : JVal :=
  (dlookup d k).getD .none_

/-- Python `k in d`. -/
def jmem (d : List (String × JVal)) (k : String) : Bool :=
  (dlookup d k).isSome

/-- Python `x is None`. -/
def isNone : JVal → Bool
  | .none_ => true
  | _ => false

/-- Python `float(x)` on a payload value; `none` models a raised
`TypeError`/`ValueError`.  (String-encoded numbers are not modelled.) -/
def pyFloat : JVal → Option ℚ
  | .num q => some q
  | .bool b => some (if b then 1 else 0)
  | _ => none

/-- Python `str(x)` on a payload value.  Identity fields are strings in
practice; the images of non-string values are representative only. -/
def pyStr : JVal → String
  | .none_ => "None"
  | .bool b => if b then "True" else "False"
  | .num q => toString q
  | .str s => s
  | .dict _ => "dict"
  | .list _ => "list"

/-- The numeric value of a payload field, when it is a number. -/
def asNum : JVal → Option ℚ
  | .num q => some q
  | _ => none

/-- The value held by the `timestamp_utc` field of a record, as seen by
`is_position_fresh`: Python `None`, a string (to be parsed by `dateutil`),
a timezone-aware `datetime` (already a UTC instant), or any other value
(on which `ts.tzinfo` raises `AttributeError`). -/
inductive TsInput where
  | pynone : TsInput
  | pystr : String → TsInput
  | pydatetime : Int → TsInput
  | other : TsInput
  deriving DecidableEq

/-- The `timestamp_utc` payload value carried into a normalized record
(JSON has no datetimes: strings parse, anything else non-`None` is `other`). -/
def toTsInput : JVal → TsInput
  | .none_ => .pynone
  | .str s => .pystr s
  | _ => .other

/-- Canonical normalized location record (the dict shape produced by
`normalize_location_record` and `normalize_cat_position` and consumed by
`dedupe_normalized_locations` and the persistence loop).  `none` in an
`Option` field models both an absent key and an explicit `None` value —
every consumer reads these fields through `dict.get`, which cannot tell
the two apart.  Coordinates are numeric when present, as the pipeline
requires (`float()` is applied to them downstream). -/
structure NormRec where
  external_id : Option String
  source_system : String
  source_category : Option String
  name : Option String
  vehicle_type : Option String
  latitude : Option ℚ
  longitude : Option ℚ
  speed_kph : Option ℚ
  heading : Option ℚ
  odometer_km : Option ℚ
  timestamp_utc : TsInput
  raw : List (String × JVal)

/-- `_category_rank` of samsara_normalizer.py: lower rank = higher
priority; anything unrecognized gets 99 (the dict-lookup default). -/
def category_rank (cat : String) : Nat :=
  if cat = "vehicles_v2" then 0
  else if cat = "equipment_v2" then 1
  else if cat = "assets_v1" then 2
  else 99

/-- Rank of a record: `_category_rank(rec.get("source_category", ""))`. -/
def recRank (r : NormRec) : Nat :=
  category_rank (r.source_category.getD "")

/-- Python truthiness of an optional-string field
(`None` and `""` are falsy). -/
def truthyStr : Option String → Bool
  | none => false
  | some s => s ≠ ""

/-- Round-half-to-even of a rational to an integer (Python 3 `round`). -/
def roundHalfEven (q : ℚ) : ℤ :=
  let f := ⌊q⌋
  let r := q - f
  if r < 1/2 then f
  else if 1/2 < r then f + 1
  else if f % 2 = 0 then f else f + 1

/-- `round(x, 5)` scaled by `10^5`, i.e. the integer `n` with
`round(x, 5) = n / 10^5`. -/
def round5 (q : ℚ) : ℤ := roundHalfEven (q * 100000)

/-- The dedup key computed in `dedupe_normalized_locations`.  The three
Python key strings have the disjoint literal prefixes `id:`,
`name_lat_lon:`, `name-only:`, and within each shape the components are
recoverable from the string, so an inductive key is a faithful
(injective) model of the string key. -/
inductive DedupKey where
  | idKey : String → DedupKey
  | nameLatLon : String → ℤ → ℤ → DedupKey
  | nameOnly : String → DedupKey
  deriving DecidableEq

/-- The per-record key of `dedupe_normalized_locations`:
`external_id` when truthy; else name + both coordinates rounded to 5
decimals when both are present; else the name-only fallback. -/
def dedupKey (r : NormRec) : DedupKey :=
  let name := r.name.getD ""
  if truthyStr r.external_id then .idKey (r.external_id.getD "")
  else
    match r.latitude, r.longitude with
    | some lat, some lon => .nameLatLon name (round5 lat) (round5 lon)
    | _, _ => .nameOnly name

/-- First value bound to `k` in the insertion-ordered map `by_key`
(modelled as an association list). -/
def lookupKey : List (DedupKey × NormRec) → DedupKey → Option NormRec
  | [], _ => none
  | (k', r') :: rest, k => if k' = k then some r' else lookupKey rest k

/-- `by_key[key] = rec` when `key` is already present: Python dicts keep
the original insertion position on value replacement. -/
def replaceAt : List (DedupKey × NormRec) → DedupKey → NormRec → List (DedupKey × NormRec)
  | [], _, _ => []
  | (k', r') :: rest, k, r =>
      if k' = k then (k, r) :: rest else (k', r') :: replaceAt rest k r

/-- One iteration of the dedupe loop body. -/
def dedupeStep (m : List (DedupKey × NormRec)) (rec : NormRec) :
    List (DedupKey × NormRec) :=
  let k := dedupKey rec
  match lookupKey m k with
  | none => m ++ [(k, rec)]
  | some existing =>
      if recRank rec < recRank existing then replaceAt m k rec else m

/-- `dedupe_normalized_locations` of samsara_normalizer.py:
fold the records into the insertion-ordered `by_key` map, then return
`list(by_key.values())`. -/
def dedupe_normalized_locations (records : List NormRec) : List NormRec :=
  (records.foldl dedupeStep []).map Prod.snd

/-- The mph-to-kph factor `1.60934` used by the normalizer. -/
def MPH_TO_KPH : ℚ := 160934 / 100000

/-- The dict returned by the location-extraction helpers
(keys latitude, longitude, timestamp_utc, speed_kph). -/
structure LocInfo where
  latitude : JVal
  longitude : JVal
  timestamp_utc : JVal
  speed_kph : JVal

/-- `_extract_location_common` of samsara_normalizer.py: v2-style nested
location group; alternate field names tried in priority order; speed
unwrapped from a `value` wrapper; an explicit miles-per-hour field
converted to km/h (a failed `float()` is swallowed by the
`except` clause, leaving the previously selected speed). -/
def extract_location_common (raw : List (String × JVal)) : Option LocInfo :=
  match pyOr (dget raw "location") (dget raw "lastKnownLocation") with
  | .dict loc =>
      let lat := dget loc "latitude"
      let lon := dget loc "longitude"
      let ts := pyOr (dget loc "time") (pyOr (dget loc "timeMs") (dget loc "updatedAt"))
      if isNone lat || isNone lon || isNone ts then none
      else
        let speed0 := pyOr (dget loc "speedKph") (pyOr (dget loc "speed") (dget loc "speedMilesPerHour"))
        let speed1 := match speed0 with
          | .dict d => dget d "value"
          | v => v
        let speed2 :=
          if jmem loc "speedMilesPerHour" then
            match pyFloat (dget loc "speedMilesPerHour") with
            | some mph => JVal.num (mph * MPH_TO_KPH)
            | none => speed1
          else speed1
        some ⟨lat, lon, ts, speed2⟩
  | _ => none

/-- `_extract_location_from_v1_asset` of samsara_normalizer.py: the first
element of the v1 location-history list is the latest; a
miles-per-hour speed is converted to km/h, anything unconvertible
becomes `None`. -/
def extract_location_from_v1_asset (raw : List (String × JVal)) : Option LocInfo :=
  match dget raw "location" with
  | .list (locJ :: _) =>
      match locJ with
      | .dict loc =>
          let lat := dget loc "latitude"
          let lon := dget loc "longitude"
          let ts := pyOr (dget loc "time") (dget loc "timeMs")
          if isNone lat || isNone lon || isNone ts then none
          else
            let speed := dget loc "speedMilesPerHour"
            let speed_kph :=
              if isNone speed then JVal.none_
              else
                match pyFloat speed with
                | some mph => JVal.num (mph * MPH_TO_KPH)
                | none => JVal.none_
            some ⟨lat, lon, ts, speed_kph⟩
      | _ => none
  | _ => none

/-- `normalize_location_record` of samsara_normalizer.py.  Identity via an
ordered fallback chain of id-like fields (a falsy-but-present id such as
`""` still passes the `is None` check); name falls back to the id;
category dispatch selects the extraction path; unknown categories and
unusable locations yield `none`. -/
def normalize_location_record (raw : List (String × JVal)) (category : String) :
    Option NormRec :=
  let ext0 := pyOr (dget raw "id") (pyOr (dget raw "assetId") (dget raw "assetSerialNumber"))
  if isNone ext0 then none
  else
    let external_id := pyStr ext0
    let nameJ := pyOr (dget raw "name") (JVal.str external_id)
    let vtypeJ := pyOr (dget raw "vehicleType") (pyOr (dget raw "assetType") (dget raw "type"))
    let locInfo :=
      if category = "vehicles_v2" || category = "equipment_v2" then
        extract_location_common raw
      else if category = "assets_v1" then
        extract_location_from_v1_asset raw
      else none
    match locInfo with
    | none => none
    | some info =>
        some { external_id := some external_id,
               source_system := "samsara",
               source_category := some category,
               name := some (pyStr nameJ),
               vehicle_type := if isNone vtypeJ then none else some (pyStr vtypeJ),
               latitude := asNum info.latitude,
               longitude := asNum info.longitude,
               speed_kph := asNum info.speed_kph,
               heading := none,
               odometer_km := none,
               timestamp_utc := toTsInput info.timestamp_utc,
               raw := raw }

/-- `normalize_cat_position` of cat_client.py.  The produced dict carries
`source_system = "cat"` but no `source_category` key at all (modelled as
`none`); identity and name fall back through
EquipmentID / SerialNumber / Model with Python truthiness. -/
def normalize_cat_position (raw : List (String × JVal)) : NormRec :=
  let header := match pyOr (dget raw "EquipmentHeader") (JVal.dict []) with
    | .dict h => h
    | _ => []
  let loc := match pyOr (dget raw "Location") (JVal.dict []) with
    | .dict h => h
    | _ => []
  let dist := match pyOr (dget raw "Distance") (JVal.dict []) with
    | .dict h => h
    | _ => []
  let equipment_id := dget header "EquipmentID"
  let serial := dget header "SerialNumber"
  let modelv := dget header "Model"
  let external_id := pyStr (pyOr equipment_id (pyOr serial (JVal.str "unknown")))
  let nameJ :=
    if truthy equipment_id then equipment_id
    else if truthy serial then serial
    else if truthy modelv then modelv
    else JVal.str ("CAT asset " ++ external_id)
  { external_id := some external_id,
    source_system := "cat",
    source_category := none,
    name := some (pyStr nameJ),
    vehicle_type := if isNone modelv then none else some (pyStr modelv),
    latitude := asNum (dget loc "Latitude"),
    longitude := asNum (dget loc "Longitude"),
    speed_kph := none,
    heading := none,
    odometer_km := asNum (dget dist "Odometer"),
    timestamp_utc := toTsInput (pyOr (dget loc "datetime") (pyOr (dget dist "datetime") (dget raw "SnapshotTime"))),
    raw := raw }

/-- `POSITION_FRESHNESS_HOURS` of vehicles_to_supabase_sync.py (14 days). -/
def POSITION_FRESHNESS_HOURS : Int := 336

/-- `is_position_fresh` of vehicles_to_supabase_sync.py.  `parse` models
`dateutil.parser.parse` (`none` = the parser raises); `now` is the
current UTC instant in seconds; the cutoff is `now - max_age_hours`
hours.  A non-`None`, non-string, non-datetime value raises
`AttributeError` at `ts.tzinfo`, which the `except` clause turns into
`False`; the function itself never raises (it is total). -/
def is_position_fresh (parse : String → Option Int) (now : Int)
    (timestamp_utc : TsInput) (max_age_hours : Int) : Bool :=
  match timestamp_utc with
  | .pynone => false
  | .pystr s =>
      match parse s with
      | some ts => decide (now - max_age_hours * 3600 ≤ ts)
      | none => false
  | .pydatetime ts => decide (now - max_age_hours * 3600 ≤ ts)
  | .other => false

/-- A job/work site row as read by `find_nearest_job`
(coordinates may be missing and such sites are skipped). -/
structure Job where
  id : Nat
  latitude : Option ℚ
  longitude : Option ℚ
  deriving DecidableEq

/-- The body of the nearest-job scan loop: a site with a missing
coordinate is skipped (`continue`); otherwise its distance is compared
to the running best under a strict `<`. -/
def nearStep (dist : ℚ → ℚ → ℚ → ℚ → ℚ) (vehicle_lat vehicle_lon : ℚ)
    (best : Option (Job × ℚ)) (job : Job) : Option (Job × ℚ) :=
  match job.latitude, job.longitude with
  | some jlat, some jlon =>
      let d := dist vehicle_lat vehicle_lon jlat jlon
      match best with
      | none => some (job, d)
      | some (bj, bd) => if d < bd then some (job, d) else some (bj, bd)
  | _, _ => best

/-- `find_nearest_job` of samsara_to_supabase_sync.py.  The great-circle
metric `haversine_km` is floating-point trigonometry, so it is abstracted
as the parameter `dist`; the linear scan keeps the running minimum under
a strict comparison (first site attaining the minimum wins ties) and the
winner is returned only when within `max_distance_km`. -/
def find_nearest_job (dist : ℚ → ℚ → ℚ → ℚ → ℚ) (vehicle_lat vehicle_lon : ℚ)
    (jobs : List Job) (max_distance_km : ℚ) : Option Job :=
  match jobs.foldl (nearStep dist vehicle_lat vehicle_lon) none with
  | some (bj, bd) => if bd ≤ max_distance_km then some bj else none
  | none => none

/-- A row of the `vehicles` table: unique key
(organization_id, external_id, source_system), soft-delete flag. -/
structure VehicleRow where
  organization_id : String
  external_id : String
  source_system : String
  name : Option String
  vtype : Option String
  description : Option String
  is_deleted : Bool
  vid : Nat
  last_seen_at : Int

/-- A row of the `vehicle_positions` table (one row per vehicle_id). -/
structure PosRow where
  organization_id : String
  vehicle_id : Nat
  latitude : Option ℚ
  longitude : Option ℚ
  heading : Option ℚ
  speed_kph : Option ℚ
  odometer_km : Option ℚ
  timestamp_utc : TsInput
  source_raw : List (String × JVal)

/-- The Supabase store visible to the sync: the two tables plus an id
source for newly created vehicles. -/
structure DB where
  vehicles : List VehicleRow
  positions : List PosRow
  nextId : Nat

/-- `ORGANIZATION_ID` of vehicles_to_supabase_sync.py. -/
def ORGANIZATION_ID : String := "04d92433-6958-4b6c-a0fb-68d59fca8104"

/-- Match on the unique key (organization_id, external_id, source_system). -/
def vehKey (org ext src : String) (row : VehicleRow) : Bool :=
  row.organization_id == org && row.external_id == ext && row.source_system == src

/-- `upsert_vehicle` of supabase_db.py: an existing soft-deleted row
short-circuits to `None` with no write; otherwise the row is
created/updated (`None` fields are dropped from the update, so existing
values are kept; `is_deleted` is never written by this path) and the
row id is returned. -/
def upsert_vehicle (db : DB) (organization_id external_id source_system : String)
    (name vtype : Option String) (now : Int) : Option Nat × DB :=
  match db.vehicles.find? (vehKey organization_id external_id source_system) with
  | some row =>
      if row.is_deleted then (none, db)
      else
        (some row.vid,
         { db with vehicles := db.vehicles.map (fun x =>
             if vehKey organization_id external_id source_system x then
               { x with name := name.orElse (fun _ => x.name),
                        vtype := vtype.orElse (fun _ => x.vtype),
                        last_seen_at := now }
             else x) })
  | none =>
      (some db.nextId,
       { db with
           vehicles := db.vehicles ++
             [⟨organization_id, external_id, source_system, name, vtype, none, false, db.nextId, now⟩],
           nextId := db.nextId + 1 })

/-- `insert_position` of supabase_db.py: upsert on the `vehicle_id`
unique constraint (overwrite-latest, no history). -/
def insert_position (db : DB) (row : PosRow) : DB :=
  if db.positions.any (fun p => p.vehicle_id == row.vehicle_id) then
    { db with positions := db.positions.map (fun p =>
        if p.vehicle_id == row.vehicle_id then row else p) }
  else
    { db with positions := db.positions ++ [row] }

/-- Whether the identity key currently resolves to a soft-deleted
(blocklisted) vehicle in the store. -/
def resolves_blocklisted (db : DB) (organization_id external_id source_system : String) :
    Bool :=
  match db.vehicles.find? (vehKey organization_id external_id source_system) with
  | some row => row.is_deleted
  | none => false

/-- Result of the persistence stage of one pass.  `posWrites` logs, in
order, the records for which `insert_position` was called. -/
structure PersistOutcome where
  db : DB
  inserted_positions : Nat
  skipped_deleted : Nat
  posWrites : List NormRec

/-- The position row written for one surviving record (`heading` and
`odometer_km` are passed as `None` literally at the call site). -/
def recPosRow (vid : Nat) (rec : NormRec) : PosRow :=
  ⟨ORGANIZATION_ID, vid, rec.latitude, rec.longitude, none, rec.speed_kph, none,
   rec.timestamp_utc, rec.raw⟩

/-- The per-record write loop of `run_sync_once`
(vehicles_to_supabase_sync.py, step 5): upsert identity; a `None`
vehicle id (blocklisted) counts the record as skipped and continues;
otherwise the latest position is upserted and counted. -/
def persistRecords (now : Int) : DB → List NormRec → PersistOutcome
  | db, [] => ⟨db, 0, 0, []⟩
  | db, rec :: rest =>
      match upsert_vehicle db ORGANIZATION_ID (rec.external_id.getD "")
          rec.source_system rec.name rec.vehicle_type now with
      | (none, db1) =>
          let res := persistRecords now db1 rest
          ⟨res.db, res.inserted_positions, res.skipped_deleted + 1, res.posWrites⟩
      | (some vid, db1) =>
          let db2 := insert_position db1 (recPosRow vid rec)
          let res := persistRecords now db2 rest
          ⟨res.db, res.inserted_positions + 1, res.skipped_deleted, rec :: res.posWrites⟩

/-- The three raw Samsara batches returned by
`fetch_all_location_payloads`. -/
structure SamsaraPayloads where
  vehicles : List (List (String × JVal))
  equipment : List (List (String × JVal))
  assets_v1 : List (List (String × JVal))

/-- `fetch_all_location_payloads` of samsara_client.py: the three
endpoint fetches run in sequence with no exception handling, so the
first failure propagates (`.error` models a raised
`SamsaraError`/transport/auth exception). -/
def fetch_all_location_payloads
    (fetch_vehicle_locations fetch_equipment_locations fetch_assets_locations_v1 :
      Except String (List (List (String × JVal)))) :
    Except String SamsaraPayloads := do
  let vehicles ← fetch_vehicle_locations
  let equipment ← fetch_equipment_locations
  let assets_v1 ← fetch_assets_locations_v1
  pure ⟨vehicles, equipment, assets_v1⟩

/-- What one completed pass produced. -/
structure PassReport where
  db : DB
  skipped_normalize : Nat
  deduped : List NormRec
  fresh_records : List NormRec
  stale_records : List NormRec
  inserted_positions : Nat
  skipped_deleted : Nat
  posWrites : List NormRec

/-- `run_sync_once` of vehicles_to_supabase_sync.py: fetch all Samsara
payloads (any raised fetch exception propagates out of the pass —
there is no try/except), normalize per category, fetch and append CAT
records (a raised CAT exception also propagates), dedupe, split by
freshness, then run the per-record write loop. -/
def run_sync_once
    (fetch_vehicle fetch_equipment fetch_assets : Except String (List (List (String × JVal))))
    (fetch_cat_positions : Except String (List NormRec))
    (parse : String → Option Int) (now : Int) (db : DB) :
    Except String PassReport := do
  let payloads ← fetch_all_location_payloads fetch_vehicle fetch_equipment fetch_assets
  let normVehicles := payloads.vehicles.filterMap
    (fun item => normalize_location_record item "vehicles_v2")
  let normEquipment := payloads.equipment.filterMap
    (fun item => normalize_location_record item "equipment_v2")
  let normAssets := payloads.assets_v1.filterMap
    (fun item => normalize_location_record item "assets_v1")
  let skipped_normalize :=
    (payloads.vehicles.length - normVehicles.length) +
    (payloads.equipment.length - normEquipment.length) +
    (payloads.assets_v1.length - normAssets.length)
  let cat_records ← fetch_cat_positions
  let normalized := normVehicles ++ normEquipment ++ normAssets ++ cat_records
  let deduped := dedupe_normalized_locations normalized
  let fresh_records := deduped.filter
    (fun rec => is_position_fresh parse now rec.timestamp_utc POSITION_FRESHNESS_HOURS)
  let stale_records := deduped.filter
    (fun rec => !(is_position_fresh parse now rec.timestamp_utc POSITION_FRESHNESS_HOURS))
  let outcome := persistRecords now db fresh_records
  pure ⟨outcome.db, skipped_normalize, deduped, fresh_records, stale_records,
        outcome.inserted_positions, outcome.skipped_deleted, outcome.posWrites⟩

/-! ### Derived notions used by the statements and proofs -/

/-- Whether a record's identity resolves to a blocklisted vehicle at the
sync's organization (normalized records always carry their
`external_id`, so the `getD` default is never taken on pipeline input). -/
def recBlocklisted (db : DB) (rec : NormRec) : Bool :=
  resolves_blocklisted db ORGANIZATION_ID (rec.external_id.getD "") rec.source_system

/-- Invariant of the dedupe map: every entry is stored under its own
record's key, and keys are pairwise distinct. -/
def goodMap (m : List (DedupKey × NormRec)) : Prop :=
  (∀ p ∈ m, dedupKey p.2 = p.1) ∧ (m.map Prod.fst).Nodup

/-- A site participates in the nearest-job scan only when both
coordinates are present. -/
def hasCoords (j : Job) : Bool := j.latitude.isSome && j.longitude.isSome

/-- Distance from the vehicle to a site under the abstracted metric. -/
def jobDist (dist : ℚ → ℚ → ℚ → ℚ → ℚ) (vlat vlon : ℚ) (j : Job) : ℚ :=
  dist vlat vlon (j.latitude.getD 0) (j.longitude.getD 0)

/-- The simplified scan step over sites that are known to have
coordinates. -/
def scanStep (d : Job → ℚ) (best : Option (Job × ℚ)) (job : Job) : Option (Job × ℚ) :=
  match best with
  | none => some (job, d job)
  | some (bj, bd) => if d job < bd then some (job, d job) else some (bj, bd)

/-- The record kept by the linear minimum scan started at `b`:
a later site replaces the incumbent only under a strictly smaller
distance, so the first site attaining the minimum wins. -/
def winner (d : Job → ℚ) : Job → List Job → Job
  | b, [] => b
  | b, x :: xs => winner d (if d x < d b then x else b) xs

/-! ### Concrete inputs used by the witnesses and counterexamples -/

/-- A plain normalized record with the given identity, category, name
and coordinates. -/
def mkRec (ext cat name : Option String) (lat lon : Option ℚ) : NormRec :=
  ⟨ext, "samsara", cat, name, none, lat, lon, none, none, none, .pynone, []⟩

/-- Legacy-category record for external id V100. -/
def recAssetsV100 : NormRec := mkRec (some "V100") (some "assets_v1") (some "V100") none none

/-- Current-vehicle-category record for the same external id V100. -/
def recVehiclesV100 : NormRec := mkRec (some "V100") (some "vehicles_v2") (some "V100") none none

/-- Record named Truck 7 at (46.200051, -119.150001), no external id. -/
def truck7a : NormRec :=
  mkRec none (some "vehicles_v2") (some "Truck 7") (some 46.200051) (some (-119.150001))

/-- Record named Truck 7 at (46.200049, -119.149999), no external id. -/
def truck7b : NormRec :=
  mkRec none (some "equipment_v2") (some "Truck 7") (some 46.200049) (some (-119.149999))

/-- A record with no external id and no coordinates, named X. -/
def keylessX1 : NormRec := mkRec none (some "vehicles_v2") (some "X") none none

/-- A distinct record, also with no external id and no coordinates, with
the same name X. -/
def keylessX2 : NormRec := mkRec none (some "assets_v1") (some "X") none none

/-- An id-keyed record distinct from `idRecB`. -/
def idRecA : NormRec := mkRec (some "A1") (some "vehicles_v2") (some "A") none none

/-- An id-keyed record distinct from `idRecA`. -/
def idRecB : NormRec := mkRec (some "B2") (some "vehicles_v2") (some "B") none none

/-- A CAT-normalized record (no `source_category` key) for id C9X. -/
def catRecW : NormRec :=
  ⟨some "C9X", "cat", none, some "C9X", none, none, none, none, none, none, .pynone, []⟩

/-- A second, distinct CAT-normalized record for the same id C9X. -/
def catRecW2 : NormRec :=
  ⟨some "C9X", "cat", none, some "other name", none, none, none, none, none, none, .pynone, []⟩

/-- A Samsara current-vehicle record for the same id C9X. -/
def samRecW : NormRec := mkRec (some "C9X") (some "vehicles_v2") (some "C9X") none none

/-- A concrete stand-in for the `dateutil` parser: recognizes one
timestamp string. -/
def parseW : String → Option Int :=
  fun s => if s = "2025-01-01T00:00:00+00:00" then some 1735689600 else none

/-- A concrete metric for the nearest-job witness (squared Euclidean
distance on raw coordinates). -/
def distW : ℚ → ℚ → ℚ → ℚ → ℚ :=
  fun a b c d => (a - c) * (a - c) + (b - d) * (b - d)

/-- Site at (0, 0). -/
def jobW0 : Job := ⟨0, some 0, some 0⟩

/-- Site at (1, 1). -/
def jobW1 : Job := ⟨1, some 1, some 1⟩

/-- A v2 location group carrying a numeric miles-per-hour speed of 10. -/
def locW : List (String × JVal) :=
  [("latitude", .num 1), ("longitude", .num 2),
   ("time", .str "2025-01-01T00:00:00+00:00"), ("speedMilesPerHour", .num 10)]

/-- A v2 raw record wrapping `locW`. -/
def rawW : List (String × JVal) := [("id", .str "V1"), ("location", .dict locW)]

/-- A v1 location-history element carrying a numeric miles-per-hour
speed of 10. -/
def locW1 : List (String × JVal) :=
  [("latitude", .num 1), ("longitude", .num 2), ("timeMs", .num 5),
   ("speedMilesPerHour", .num 10)]

/-- A v1 raw asset record wrapping `locW1`. -/
def rawW1 : List (String × JVal) :=
  [("assetSerialNumber", .str "A1"), ("location", .list [.dict locW1])]

/-- An equipment raw record that normalizes successfully and is fresh at
the witness instant. -/
def goodEquipRaw : List (String × JVal) :=
  [("id", .str "EQ1"), ("name", .str "Excavator"),
   ("location", .dict
     [("latitude", .num 46), ("longitude", .num (-119)),
      ("time", .str "2025-01-01T00:00:00+00:00")])]

/-- An empty store. -/
def dbW : DB := ⟨[], [], 0⟩

/-! ### Dedupe lemmas -/

theorem dedupe_pair (r1 r2 : NormRec) (hk : dedupKey r1 = dedupKey r2) :
    dedupe_normalized_locations [r1, r2] =
      [if recRank r2 < recRank r1 then r2 else r1] := by
  have h1 : dedupeStep [] r1 = [(dedupKey r1, r1)] := rfl
  have h2 : dedupeStep [(dedupKey r1, r1)] r2 =
      if recRank r2 < recRank r1 then [(dedupKey r2, r2)] else [(dedupKey r1, r1)] := by
    simp [dedupeStep, lookupKey, hk, replaceAt]
  simp only [dedupe_normalized_locations, List.foldl, h1, h2]
  by_cases hr : recRank r2 < recRank r1 <;> simp [hr]

theorem dedupKey_of_ext (r : NormRec) (e : String) (he : e ≠ "")
    (h : r.external_id = some e) : dedupKey r = .idKey e := by
  simp [dedupKey, h, truthyStr, he]

theorem lookupKey_append_of_none (m : List (DedupKey × NormRec)) (k : DedupKey)
    (r : NormRec) (k' : DedupKey) (h : lookupKey m k' = none) :
    lookupKey (m ++ [(k, r)]) k' = if k = k' then some r else none := by
  induction m with
  | nil => rfl
  | cons p rest ih =>
      obtain ⟨a, b⟩ := p
      by_cases hak : a = k'
      · simp [lookupKey, hak] at h
      · simp only [lookupKey, List.cons_append, if_neg hak] at h ⊢
        exact ih h

theorem lookupKey_eq_none_iff (m : List (DedupKey × NormRec)) (k : DedupKey) :
    lookupKey m k = none ↔ k ∉ m.map Prod.fst := by
  induction m with
  | nil => simp [lookupKey]
  | cons p rest ih =>
      obtain ⟨a, b⟩ := p
      by_cases hak : a = k
      · subst hak
        simp [lookupKey]
      · simp only [lookupKey, if_neg hak, List.map_cons, List.mem_cons, ih]
        constructor
        · intro hn h2
          rcases h2 with h2 | h2
          · exact hak h2.symm
          · exact hn h2
        · intro hn h2
          exact hn (Or.inr h2)

theorem mapFst_replaceAt (m : List (DedupKey × NormRec)) (k : DedupKey) (r : NormRec) :
    (replaceAt m k r).map Prod.fst = m.map Prod.fst := by
  induction m with
  | nil => rfl
  | cons p rest ih =>
      obtain ⟨a, b⟩ := p
      by_cases hak : a = k <;> simp [replaceAt, hak, ih]

theorem mem_replaceAt (m : List (DedupKey × NormRec)) (k : DedupKey) (r : NormRec)
    (p : DedupKey × NormRec) (hp : p ∈ replaceAt m k r) : p = (k, r) ∨ p ∈ m := by
  induction m with
  | nil => simp [replaceAt] at hp
  | cons q rest ih =>
      obtain ⟨a, b⟩ := q
      by_cases hak : a = k
      · simp only [replaceAt, if_pos hak] at hp
        rcases List.mem_cons.mp hp with h | h
        · exact Or.inl h
        · exact Or.inr (List.mem_cons_of_mem _ h)
      · simp only [replaceAt, if_neg hak] at hp
        rcases List.mem_cons.mp hp with h | h
        · exact Or.inr (h ▸ List.mem_cons_self _ _)
        · rcases ih h with h2 | h2
          · exact Or.inl h2
          · exact Or.inr (List.mem_cons_of_mem _ h2)

theorem goodMap_step (m : List (DedupKey × NormRec)) (r : NormRec)
    (h : goodMap m) : goodMap (dedupeStep m r) := by
  cases hlk : lookupKey m (dedupKey r) with
  | none =>
      have hstep : dedupeStep m r = m ++ [(dedupKey r, r)] := by
        simp [dedupeStep, hlk]
      rw [hstep]
      refine ⟨?_, ?_⟩
      · intro p hp
        rcases List.mem_append.mp hp with hp2 | hp2
        · exact h.1 p hp2
        · simp at hp2
          simp [hp2]
      · rw [List.map_append]
        refine List.Nodup.append h.2 (by simp) ?_
        intro a ha hb
        simp at hb
        subst hb
        exact (lookupKey_eq_none_iff m (dedupKey r)).mp hlk ha
  | some old =>
      by_cases hr : recRank r < recRank old
      · have hstep : dedupeStep m r = replaceAt m (dedupKey r) r := by
          simp [dedupeStep, hlk, hr]
        rw [hstep]
        refine ⟨?_, ?_⟩
        · intro p hp
          rcases mem_replaceAt m (dedupKey r) r p hp with h2 | h2
          · simp [h2]
          · exact h.1 p h2
        · rw [mapFst_replaceAt]
          exact h.2
      · have hstep : dedupeStep m r = m := by
          simp [dedupeStep, hlk, hr]
        rw [hstep]
        exact h

theorem goodMap_foldl (l : List NormRec) :
    ∀ m, goodMap m → goodMap (l.foldl dedupeStep m) := by
  induction l with
  | nil => intro m h; exact h
  | cons r t ih => intro m h; exact ih _ (goodMap_step m r h)

theorem dedupe_keys_nodup (l : List NormRec) :
    ((dedupe_normalized_locations l).map dedupKey).Nodup := by
  have hg : goodMap (l.foldl dedupeStep []) :=
    goodMap_foldl l [] ⟨by simp, by simp⟩
  unfold dedupe_normalized_locations
  rw [List.map_map]
  have heq : (l.foldl dedupeStep []).map (dedupKey ∘ Prod.snd) =
      (l.foldl dedupeStep []).map Prod.fst :=
    List.map_congr_left (fun p hp => hg.1 p hp)
  rw [heq]
  exact hg.2

theorem foldl_dedupeStep_fresh (l : List NormRec) :
    ∀ m, (l.map dedupKey).Nodup →
      (∀ r ∈ l, lookupKey m (dedupKey r) = none) →
      l.foldl dedupeStep m = m ++ l.map (fun r => (dedupKey r, r)) := by
  induction l with
  | nil => intro m _ _; simp
  | cons r t ih =>
      intro m hnd hfr
      have hk : lookupKey m (dedupKey r) = none := hfr r (List.mem_cons_self r t)
      have hstep : dedupeStep m r = m ++ [(dedupKey r, r)] := by
        simp [dedupeStep, hk]
      rw [List.foldl_cons, hstep, ih (m ++ [(dedupKey r, r)])
        (List.Nodup.of_cons (by simpa using hnd)) ?_]
      · simp
      · intro x hx
        have hne : dedupKey r ≠ dedupKey x := by
          intro hcontra
          have : dedupKey x ∈ t.map dedupKey := List.mem_map_of_mem dedupKey hx
          rw [← hcontra] at this
          exact (List.nodup_cons.mp (by simpa using hnd)).1 this
        rw [lookupKey_append_of_none m _ r _ (hfr x (List.mem_cons_of_mem _ hx))]
        simp [hne]

theorem dedupe_nodup_noop (l : List NormRec) (h : (l.map dedupKey).Nodup) :
    dedupe_normalized_locations l = l := by
  unfold dedupe_normalized_locations
  rw [foldl_dedupeStep_fresh l [] h (fun r _ => rfl)]
  simp only [List.nil_append, List.map_map]
  have hcomp : (Prod.snd ∘ fun r : NormRec => (dedupKey r, r)) = id := rfl
  rw [hcomp, List.map_id]

/-! ### Claims about the deduplicator -/

/-- Claim C1: on any dedup-key collision between two records, the
deduplicator keeps the record whose `source_category` has the higher
priority under `_category_rank` (vehicles_v2 rank 0, equipment_v2 rank 1,
assets_v1 rank 2, anything unrecognized rank 99); equal priority keeps
the first-seen record; in particular, of two same-external_id records —
one assets_v1 and one vehicles_v2 — the vehicles_v2 record is kept, in
either arrival order. -/
theorem dedupe_priority_resolution :
    (∀ r1 r2 : NormRec, dedupKey r1 = dedupKey r2 →
       dedupe_normalized_locations [r1, r2] =
         [if recRank r2 < recRank r1 then r2 else r1]) ∧
    (∀ (r1 r2 : NormRec) (e : String), e ≠ "" →
       r1.external_id = some e → r2.external_id = some e →
       r1.source_category = some "assets_v1" →
       r2.source_category = some "vehicles_v2" →
       dedupe_normalized_locations [r1, r2] = [r2] ∧
       dedupe_normalized_locations [r2, r1] = [r2]) := by
  refine ⟨fun r1 r2 hk => dedupe_pair r1 r2 hk, ?_⟩
  intro r1 r2 e he h1 h2 hc1 hc2
  have hk : dedupKey r1 = dedupKey r2 := by
    rw [dedupKey_of_ext r1 e he h1, dedupKey_of_ext r2 e he h2]
  have hr1 : recRank r1 = 2 := by simp [recRank, hc1, category_rank]
  have hr2 : recRank r2 = 0 := by simp [recRank, hc2, category_rank]
  constructor
  · rw [dedupe_pair r1 r2 hk, hr1, hr2]
    norm_num
  · rw [dedupe_pair r2 r1 hk.symm, hr1, hr2]
    norm_num

/-- Witness for C1: a concrete assets_v1 / vehicles_v2 pair sharing
external id V100 dedupes to the vehicles_v2 record in both orders. -/
theorem dedupe_priority_resolution_witness :
    dedupe_normalized_locations [recAssetsV100, recVehiclesV100] = [recVehiclesV100] ∧
    dedupe_normalized_locations [recVehiclesV100, recAssetsV100] = [recVehiclesV100] :=
  dedupe_priority_resolution.2 recAssetsV100 recVehiclesV100 "V100"
    (by decide) rfl rfl rfl rfl

/-- Claim C4 (showing the code's actual behavior): two distinct records
that both lack an external id and coordinates but share the name X
receive the same `name-only:` key and are collapsed to one record —
the fallback key is not per-record. -/
theorem dedupe_merges_keyless_same_name :
    keylessX1 ≠ keylessX2 ∧
    dedupe_normalized_locations [keylessX1, keylessX2] = [keylessX1] := by
  constructor
  · intro h
    have h2 := congrArg NormRec.source_category h
    simp [keylessX1, keylessX2, mkRec] at h2
  · rfl

/-- Claim C8: two records without a truthy external id, with equal
names and with coordinates that agree after rounding to 5 decimal
places, collapse to a single record. -/
theorem dedupe_collapses_rounded_coords
    (r1 r2 : NormRec)
    (hx1 : truthyStr r1.external_id = false) (hx2 : truthyStr r2.external_id = false)
    (hn : r1.name = r2.name)
    (la1 lo1 la2 lo2 : ℚ)
    (hla1 : r1.latitude = some la1) (hlo1 : r1.longitude = some lo1)
    (hla2 : r2.latitude = some la2) (hlo2 : r2.longitude = some lo2)
    (hrla : round5 la1 = round5 la2) (hrlo : round5 lo1 = round5 lo2) :
    (dedupe_normalized_locations [r1, r2]).length = 1 := by
  have hk : dedupKey r1 = dedupKey r2 := by
    simp [dedupKey, hx1, hx2, hla1, hlo1, hla2, hlo2, hn, hrla, hrlo]
  rw [dedupe_pair r1 r2 hk]
  by_cases hr : recRank r2 < recRank r1 <;> simp [hr]

/-- Witness for C8: the two Truck 7 records at (46.200051, -119.150001)
and (46.200049, -119.149999) collapse to one record. -/
theorem dedupe_collapses_rounded_coords_witness :
    (dedupe_normalized_locations [truck7a, truck7b]).length = 1 :=
  dedupe_collapses_rounded_coords truck7a truck7b rfl rfl rfl
    46.200051 (-119.150001) 46.200049 (-119.149999)
    rfl rfl rfl rfl
    (by norm_num [round5, roundHalfEven]) (by norm_num [round5, roundHalfEven])

/-- Claim C9: dedupe is idempotent — a list whose records already have
pairwise-distinct dedup keys passes through unchanged (same records,
same order), and dedupe of a dedupe output is that output. -/
theorem dedupe_idempotent :
    (∀ l : List NormRec, (l.map dedupKey).Nodup →
       dedupe_normalized_locations l = l) ∧
    (∀ l : List NormRec,
       dedupe_normalized_locations (dedupe_normalized_locations l) =
         dedupe_normalized_locations l) :=
  ⟨dedupe_nodup_noop, fun l => dedupe_nodup_noop _ (dedupe_keys_nodup l)⟩

/-- Witness for C9: a concrete two-record distinct-key list is returned
unchanged. -/
theorem dedupe_idempotent_witness :
    dedupe_normalized_locations [idRecA, idRecB] = [idRecA, idRecB] :=
  dedupe_idempotent.1 [idRecA, idRecB] (by decide)

/-- Claim C10: `normalize_cat_position` never emits a `source_category`
field, so CAT records rank lowest (99): on a key collision a
Samsara-categorized record beats a CAT record in either arrival order,
and a collision between two CAT records keeps the first-seen one. -/
theorem cat_records_lowest_priority :
    (∀ raw : List (String × JVal), (normalize_cat_position raw).source_category = none) ∧
    (∀ rc rs : NormRec, rc.source_category = none →
       (rs.source_category = some "vehicles_v2" ∨
        rs.source_category = some "equipment_v2" ∨
        rs.source_category = some "assets_v1") →
       dedupKey rc = dedupKey rs →
       dedupe_normalized_locations [rc, rs] = [rs] ∧
       dedupe_normalized_locations [rs, rc] = [rs]) ∧
    (∀ c1 c2 : NormRec, c1.source_category = none → c2.source_category = none →
       dedupKey c1 = dedupKey c2 →
       dedupe_normalized_locations [c1, c2] = [c1]) := by
  refine ⟨fun raw => rfl, ?_, ?_⟩
  · intro rc rs hc hcat hk
    have hrc : recRank rc = 99 := by simp [recRank, hc, category_rank]
    have hrs : recRank rs < 99 := by
      rcases hcat with h | h | h <;> simp [recRank, h, category_rank]
    constructor
    · rw [dedupe_pair rc rs hk, hrc, if_pos hrs]
    · rw [dedupe_pair rs rc hk.symm, hrc, if_neg (by omega)]
  · intro c1 c2 h1 h2 hk
    have hr1 : recRank c1 = 99 := by simp [recRank, h1, category_rank]
    have hr2 : recRank c2 = 99 := by simp [recRank, h2, category_rank]
    rw [dedupe_pair c1 c2 hk, hr1, hr2, if_neg (by omega)]

/-- Witness for C10: concrete CAT/Samsara records sharing external id
C9X dedupe to the Samsara record in both orders, and two CAT records
keep the first-seen one. -/
theorem cat_records_lowest_priority_witness :
    dedupe_normalized_locations [catRecW, samRecW] = [samRecW] ∧
    dedupe_normalized_locations [samRecW, catRecW] = [samRecW] ∧
    dedupe_normalized_locations [catRecW, catRecW2] = [catRecW] :=
  ⟨(cat_records_lowest_priority.2.1 catRecW samRecW rfl (Or.inl rfl) (by decide)).1,
   (cat_records_lowest_priority.2.1 catRecW samRecW rfl (Or.inl rfl) (by decide)).2,
   cat_records_lowest_priority.2.2 catRecW catRecW2 rfl rfl (by decide)⟩

/-- Claim C2: `is_position_fresh` is true exactly when the timestamp
resolves to a UTC instant at or after `now` minus `max_age_hours` hours
(the default threshold constant is 336 hours); the exact cutoff instant
is fresh and one second older is stale; `None`, unparseable strings and
non-timestamp values all yield `false` — and the function is total, so
it never raises. -/
theorem is_position_fresh_spec :
    POSITION_FRESHNESS_HOURS = 336 ∧
    (∀ (parse : String → Option Int) (now maxAge t : Int),
       is_position_fresh parse now (.pydatetime t) maxAge =
         decide (now - maxAge * 3600 ≤ t)) ∧
    (∀ (parse : String → Option Int) (now maxAge : Int) (s : String) (t : Int),
       parse s = some t →
       is_position_fresh parse now (.pystr s) maxAge =
         decide (now - maxAge * 3600 ≤ t)) ∧
    (∀ (parse : String → Option Int) (now maxAge : Int) (s : String),
       parse s = none →
       is_position_fresh parse now (.pystr s) maxAge = false) ∧
    (∀ (parse : String → Option Int) (now maxAge : Int),
       is_position_fresh parse now .pynone maxAge = false) ∧
    (∀ (parse : String → Option Int) (now maxAge : Int),
       is_position_fresh parse now .other maxAge = false) ∧
    (∀ (parse : String → Option Int) (now maxAge : Int),
       is_position_fresh parse now (.pydatetime (now - maxAge * 3600)) maxAge = true) ∧
    (∀ (parse : String → Option Int) (now maxAge : Int),
       is_position_fresh parse now (.pydatetime (now - maxAge * 3600 - 1)) maxAge = false) := by
  refine ⟨rfl, fun _ _ _ _ => rfl, ?_, ?_, fun _ _ _ => rfl, fun _ _ _ => rfl, ?_, ?_⟩
  · intro parse now maxAge s t hp
    simp [is_position_fresh, hp]
  · intro parse now maxAge s hp
    simp [is_position_fresh, hp]
  · intro parse now maxAge
    simp [is_position_fresh]
  · intro parse now maxAge
    simp [is_position_fresh]

/-- Witness for C2: the concrete parser recognizes one string, whose
instant equals `now`, so the record is fresh; the same string one
second before the cutoff is stale; an unrecognized string is stale. -/
theorem is_position_fresh_spec_witness :
    parseW "2025-01-01T00:00:00+00:00" = some 1735689600 ∧
    is_position_fresh parseW 1735689600 (.pystr "2025-01-01T00:00:00+00:00") 336 = true ∧
    is_position_fresh parseW (1735689600 + 336 * 3600 + 1) (.pystr "2025-01-01T00:00:00+00:00") 336 = false ∧
    is_position_fresh parseW 1735689600 (.pystr "not a timestamp") 336 = false := by
  refine ⟨rfl, ?_, ?_, ?_⟩
  · rw [is_position_fresh_spec.2.2.1 parseW 1735689600 336
      "2025-01-01T00:00:00+00:00" 1735689600 rfl]
    decide
  · rw [is_position_fresh_spec.2.2.1 parseW (1735689600 + 336 * 3600 + 1) 336
      "2025-01-01T00:00:00+00:00" 1735689600 rfl]
    decide
  · exact is_position_fresh_spec.2.2.2.1 parseW 1735689600 336 "not a timestamp" rfl

/-- Claim C7: a location group carrying a numeric miles-per-hour speed
field normalizes with `speed_kph` equal to that value times 1.60934, in
both the v2 (`_extract_location_common`) and the legacy v1 asset
(`_extract_location_from_v1_asset`) extraction paths. -/
theorem mph_speed_converted_to_kph :
    (∀ (raw loc : List (String × JVal)) (v : ℚ),
       pyOr (dget raw "location") (dget raw "lastKnownLocation") = .dict loc →
       isNone (dget loc "latitude") = false →
       isNone (dget loc "longitude") = false →
       isNone (pyOr (dget loc "time") (pyOr (dget loc "timeMs") (dget loc "updatedAt"))) = false →
       dlookup loc "speedMilesPerHour" = some (.num v) →
       ∃ info, extract_location_common raw = some info ∧
         info.speed_kph = .num (v * MPH_TO_KPH)) ∧
    (∀ (raw loc : List (String × JVal)) (rest : List JVal) (v : ℚ),
       dget raw "location" = .list (.dict loc :: rest) →
       isNone (dget loc "latitude") = false →
       isNone (dget loc "longitude") = false →
       isNone (pyOr (dget loc "time") (dget loc "timeMs")) = false →
       dlookup loc "speedMilesPerHour" = some (.num v) →
       ∃ info, extract_location_from_v1_asset raw = some info ∧
         info.speed_kph = .num (v * MPH_TO_KPH)) := by
  constructor
  · intro raw loc v hloc hlat hlon hts hmph
    have hget : dget loc "speedMilesPerHour" = .num v := by
      simp [dget, hmph]
    have hmem : jmem loc "speedMilesPerHour" = true := by
      simp [jmem, hmph]
    have hres : extract_location_common raw =
        some ⟨dget loc "latitude", dget loc "longitude",
              pyOr (dget loc "time") (pyOr (dget loc "timeMs") (dget loc "updatedAt")),
              .num (v * MPH_TO_KPH)⟩ := by
      simp only [extract_location_common, hloc]
      simp [hlat, hlon, hts, hmem, hget, pyFloat]
    exact ⟨_, hres, rfl⟩
  · intro raw loc rest v hloc hlat hlon hts hmph
    have hget : dget loc "speedMilesPerHour" = .num v := by
      simp [dget, hmph]
    have hnn : isNone (dget loc "speedMilesPerHour") = false := by
      rw [hget]
      rfl
    have hres : extract_location_from_v1_asset raw =
        some ⟨dget loc "latitude", dget loc "longitude",
              pyOr (dget loc "time") (dget loc "timeMs"),
              .num (v * MPH_TO_KPH)⟩ := by
      have hv : isNone (JVal.num v) = false := rfl
      simp only [extract_location_from_v1_asset, hloc]
      simp [hlat, hlon, hts, hnn, hget, hv, pyFloat]
    exact ⟨_, hres, rfl⟩

/-- Witness for C7: concrete v2 and v1 records with a miles-per-hour
speed of 10 normalize to a speed_kph equal to 16.0934, which is within
0.001 of 16.0934. -/
theorem mph_speed_converted_to_kph_witness :
    (∃ info, extract_location_common rawW = some info ∧
       info.speed_kph = .num (10 * MPH_TO_KPH)) ∧
    (∃ info, extract_location_from_v1_asset rawW1 = some info ∧
       info.speed_kph = .num (10 * MPH_TO_KPH)) ∧
    |10 * MPH_TO_KPH - 16.0934| ≤ (1 : ℚ) / 1000 :=
  ⟨mph_speed_converted_to_kph.1 rawW locW 10 rfl rfl rfl rfl rfl,
   mph_speed_converted_to_kph.2 rawW1 locW1 [] 10 rfl rfl rfl rfl rfl,
   by norm_num [MPH_TO_KPH]⟩

/-- Counterexample to C3 as stated: with the vehicles fetch failing
("timeout") the whole pass aborts with that error — the equipment
source's perfectly good record is not normalized or persisted — even
though the very same equipment record is persisted (one inserted
position) when no fetch fails. -/
theorem run_sync_failure_not_isolated_cex :
    run_sync_once (Except.error "timeout") (Except.ok [goodEquipRaw]) (Except.ok [])
        (Except.ok []) parseW 1735689600 dbW = Except.error "timeout" ∧
    (run_sync_once (Except.ok []) (Except.ok [goodEquipRaw]) (Except.ok [])
        (Except.ok []) parseW 1735689600 dbW).map PassReport.inserted_positions =
      Except.ok 1 := by
  constructor
  · rfl
  · rfl

/-- Claim C3 as amended: there is no per-source failure isolation — a
fetch failure from any of the four sources propagates out of
`run_sync_once` as that error and the pass processes nothing; only when
every fetch succeeds does the pass run the
normalize/dedupe/filter/persist pipeline. -/
theorem run_sync_fetch_failure_aborts
    (fv fe fa : Except String (List (List (String × JVal))))
    (fcat : Except String (List NormRec))
    (parse : String → Option Int) (now : Int) (db : DB) :
    (∀ e, fv = .error e →
       run_sync_once fv fe fa fcat parse now db = .error e) ∧
    (∀ lv e, fv = .ok lv → fe = .error e →
       run_sync_once fv fe fa fcat parse now db = .error e) ∧
    (∀ lv le e, fv = .ok lv → fe = .ok le → fa = .error e →
       run_sync_once fv fe fa fcat parse now db = .error e) ∧
    (∀ lv le la e, fv = .ok lv → fe = .ok le → fa = .ok la → fcat = .error e →
       run_sync_once fv fe fa fcat parse now db = .error e) ∧
    (∀ lv le la lc, fv = .ok lv → fe = .ok le → fa = .ok la → fcat = .ok lc →
       ∃ report, run_sync_once fv fe fa fcat parse now db = .ok report) := by
  refine ⟨?_, ?_, ?_, ?_, ?_⟩
  · intro e h1
    subst h1
    rfl
  · intro lv e h1 h2
    subst h1
    subst h2
    rfl
  · intro lv le e h1 h2 h3
    subst h1
    subst h2
    subst h3
    rfl
  · intro lv le la e h1 h2 h3 h4
    subst h1
    subst h2
    subst h3
    subst h4
    rfl
  · intro lv le la lc h1 h2 h3 h4
    subst h1
    subst h2
    subst h3
    subst h4
    exact ⟨_, rfl⟩

/-- Witness for the amended C3: a concrete auth failure on the vehicles
fetch aborts the concrete pass with that error. -/
theorem run_sync_fetch_failure_aborts_witness :
    run_sync_once (Except.error "401 unauthorized") (Except.ok [goodEquipRaw])
        (Except.ok []) (Except.ok []) parseW 1735689600 dbW =
      Except.error "401 unauthorized" :=
  (run_sync_fetch_failure_aborts (Except.error "401 unauthorized")
      (Except.ok [goodEquipRaw]) (Except.ok []) (Except.ok [])
      parseW 1735689600 dbW).1 "401 unauthorized" rfl

/-! ### Persistence lemmas -/

theorem bl_find_map_preserve (l : List VehicleRow) (p : VehicleRow → Bool)
    (f : VehicleRow → VehicleRow)
    (hp : ∀ x, p (f x) = p x) (hd : ∀ x, (f x).is_deleted = x.is_deleted) :
    (match (l.map f).find? p with
     | some row => row.is_deleted
     | none => false) =
    (match l.find? p with
     | some row => row.is_deleted
     | none => false) := by
  induction l with
  | nil => rfl
  | cons x rest ih =>
      by_cases hx : p x
      · rw [List.map_cons, List.find?_cons_of_pos _ (by rw [hp]; exact hx),
          List.find?_cons_of_pos _ hx]
        exact hd x
      · rw [List.map_cons, List.find?_cons_of_neg _ (by rw [hp]; exact hx),
          List.find?_cons_of_neg _ hx]
        exact ih

theorem vehKey_eq_of_beq {org ext src : String} {row : VehicleRow}
    (h : vehKey org ext src row = true) :
    row.organization_id = org ∧ row.external_id = ext ∧ row.source_system = src := by
  simp [vehKey] at h
  exact ⟨h.1.1, h.1.2, h.2⟩

theorem resolves_blocklisted_upsert (db : DB) (org ext src : String)
    (name vtype : Option String) (now : Int) (o2 e2 s2 : String) :
    resolves_blocklisted (upsert_vehicle db org ext src name vtype now).2 o2 e2 s2 =
      resolves_blocklisted db o2 e2 s2 := by
  cases hfind : db.vehicles.find? (vehKey org ext src) with
  | none =>
      have hstep : (upsert_vehicle db org ext src name vtype now).2 =
          { db with
              vehicles := db.vehicles ++
                [⟨org, ext, src, name, vtype, none, false, db.nextId, now⟩],
              nextId := db.nextId + 1 } := by
        simp [upsert_vehicle, hfind]
      rw [hstep]
      show (match (db.vehicles ++ [_]).find? (vehKey o2 e2 s2) with
            | some row => row.is_deleted
            | none => false) = _
      rw [List.find?_append]
      by_cases hnew : vehKey o2 e2 s2 ⟨org, ext, src, name, vtype, none, false, db.nextId, now⟩
      · obtain ⟨ho, he, hs⟩ := vehKey_eq_of_beq hnew
        simp only at ho he hs
        subst ho
        subst he
        subst hs
        rw [hfind]
        simp [resolves_blocklisted, hfind, List.find?_cons_of_pos _ hnew]
      · rw [List.find?_cons_of_neg _ hnew]
        simp [resolves_blocklisted]
  | some row =>
      by_cases hdel : row.is_deleted
      · have hstep : (upsert_vehicle db org ext src name vtype now).2 = db := by
          simp [upsert_vehicle, hfind, hdel]
        rw [hstep]

      · have hstep : (upsert_vehicle db org ext src name vtype now).2 =
            { db with vehicles := db.vehicles.map (fun x =>
                if vehKey org ext src x then
                  { x with name := name.orElse (fun _ => x.name),
                           vtype := vtype.orElse (fun _ => x.vtype),
                           last_seen_at := now }
                else x) } := by
          simp [upsert_vehicle, hfind, hdel]
        rw [hstep]
        show (match (db.vehicles.map _).find? (vehKey o2 e2 s2) with
              | some r => r.is_deleted
              | none => false) = _
        rw [bl_find_map_preserve]
        · rfl
        · intro x
          by_cases hx : vehKey org ext src x
          · rw [if_pos hx]
            rfl
          · rw [if_neg hx]
        · intro x
          by_cases hx : vehKey org ext src x
          · rw [if_pos hx]
          · rw [if_neg hx]

theorem resolves_blocklisted_insert_position (db : DB) (row : PosRow)
    (o2 e2 s2 : String) :
    resolves_blocklisted (insert_position db row) o2 e2 s2 =
      resolves_blocklisted db o2 e2 s2 := by
  unfold insert_position
  by_cases h : db.positions.any (fun p => p.vehicle_id == row.vehicle_id) <;>
    simp [h, resolves_blocklisted]

theorem upsert_vehicle_fst_none_iff (db : DB) (org ext src : String)
    (name vtype : Option String) (now : Int) :
    (upsert_vehicle db org ext src name vtype now).1 = none ↔
      resolves_blocklisted db org ext src = true := by
  cases hfind : db.vehicles.find? (vehKey org ext src) with
  | none => simp [upsert_vehicle, hfind, resolves_blocklisted]
  | some row =>
      by_cases hdel : row.is_deleted <;>
        simp [upsert_vehicle, hfind, hdel, resolves_blocklisted]

theorem upsert_vehicle_snd_of_blocked (db : DB) (org ext src : String)
    (name vtype : Option String) (now : Int)
    (h : (upsert_vehicle db org ext src name vtype now).1 = none) :
    (upsert_vehicle db org ext src name vtype now).2 = db := by
  cases hfind : db.vehicles.find? (vehKey org ext src) with
  | none => simp [upsert_vehicle, hfind] at h
  | some row =>
      by_cases hdel : row.is_deleted
      · simp [upsert_vehicle, hfind, hdel]
      · simp [upsert_vehicle, hfind, hdel] at h

theorem recBlocklisted_upsert (db : DB) (org ext src : String)
    (name vtype : Option String) (now : Int) (rec : NormRec) :
    recBlocklisted (upsert_vehicle db org ext src name vtype now).2 rec =
      recBlocklisted db rec :=
  resolves_blocklisted_upsert db org ext src name vtype now _ _ _

/-- Claim C6: in the per-record write loop, exactly the records whose
identity resolves to a blocklisted (soft-deleted) vehicle are skipped —
each contributes one increment to the skipped-as-blocklisted counter
and no position upsert — while every other record still gets its
position written, in order. -/
theorem persist_skips_blocklisted (now : Int) (db : DB) (recs : List NormRec) :
    (persistRecords now db recs).posWrites =
      recs.filter (fun r => !(recBlocklisted db r)) ∧
    (persistRecords now db recs).skipped_deleted =
      (recs.filter (fun r => recBlocklisted db r)).length := by
  induction recs generalizing db with
  | nil => exact ⟨rfl, rfl⟩
  | cons rec rest ih =>
      cases hcase : (upsert_vehicle db ORGANIZATION_ID (rec.external_id.getD "")
          rec.source_system rec.name rec.vehicle_type now).1 with
      | none =>
          have hbl : recBlocklisted db rec = true :=
            (upsert_vehicle_fst_none_iff db ORGANIZATION_ID (rec.external_id.getD "")
              rec.source_system rec.name rec.vehicle_type now).mp hcase
          have hdb : (upsert_vehicle db ORGANIZATION_ID (rec.external_id.getD "")
              rec.source_system rec.name rec.vehicle_type now).2 = db :=
            upsert_vehicle_snd_of_blocked db ORGANIZATION_ID (rec.external_id.getD "")
              rec.source_system rec.name rec.vehicle_type now hcase
          have hpair : upsert_vehicle db ORGANIZATION_ID (rec.external_id.getD "")
              rec.source_system rec.name rec.vehicle_type now = (none, db) :=
            Prod.ext_iff.mpr ⟨hcase, hdb⟩
          have hstep : persistRecords now db (rec :: rest) =
              ⟨(persistRecords now db rest).db,
               (persistRecords now db rest).inserted_positions,
               (persistRecords now db rest).skipped_deleted + 1,
               (persistRecords now db rest).posWrites⟩ := by
            simp [persistRecords, hpair]
          rw [hstep]
          refine ⟨?_, ?_⟩
          · simp [List.filter_cons, hbl, (ih db).1]
          · simp [List.filter_cons, hbl, (ih db).2]
      | some vid =>
          have hbl : recBlocklisted db rec = false := by
            cases hb : recBlocklisted db rec
            · rfl
            · exfalso
              have h2 := (upsert_vehicle_fst_none_iff db ORGANIZATION_ID
                (rec.external_id.getD "") rec.source_system rec.name
                rec.vehicle_type now).mpr hb
              rw [hcase] at h2
              simp at h2
          have hpair : upsert_vehicle db ORGANIZATION_ID (rec.external_id.getD "")
              rec.source_system rec.name rec.vehicle_type now =
                (some vid, (upsert_vehicle db ORGANIZATION_ID (rec.external_id.getD "")
                  rec.source_system rec.name rec.vehicle_type now).2) :=
            Prod.ext_iff.mpr ⟨hcase, rfl⟩
          have hdb2 : ∀ r,
              recBlocklisted (insert_position
                (upsert_vehicle db ORGANIZATION_ID (rec.external_id.getD "")
                  rec.source_system rec.name rec.vehicle_type now).2
                (recPosRow vid rec)) r =
                recBlocklisted db r := by
            intro r
            rw [recBlocklisted, resolves_blocklisted_insert_position]
            exact recBlocklisted_upsert db ORGANIZATION_ID (rec.external_id.getD "")
              rec.source_system rec.name rec.vehicle_type now r
          have hstep : persistRecords now db (rec :: rest) =
              ⟨(persistRecords now (insert_position
                  (upsert_vehicle db ORGANIZATION_ID (rec.external_id.getD "")
                    rec.source_system rec.name rec.vehicle_type now).2
                  (recPosRow vid rec)) rest).db,
               (persistRecords now (insert_position
                  (upsert_vehicle db ORGANIZATION_ID (rec.external_id.getD "")
                    rec.source_system rec.name rec.vehicle_type now).2
                  (recPosRow vid rec)) rest).inserted_positions + 1,
               (persistRecords now (insert_position
                  (upsert_vehicle db ORGANIZATION_ID (rec.external_id.getD "")
                    rec.source_system rec.name rec.vehicle_type now).2
                  (recPosRow vid rec)) rest).skipped_deleted,
               rec :: (persistRecords now (insert_position
                  (upsert_vehicle db ORGANIZATION_ID (rec.external_id.getD "")
                    rec.source_system rec.name rec.vehicle_type now).2
                  (recPosRow vid rec)) rest).posWrites⟩ := by
            conv_lhs => rw [persistRecords, hpair]
          rw [hstep]
          have hfiltEq1 : rest.filter
              (fun r => !(recBlocklisted (insert_position
                (upsert_vehicle db ORGANIZATION_ID (rec.external_id.getD "")
                  rec.source_system rec.name rec.vehicle_type now).2
                (recPosRow vid rec)) r)) =
              rest.filter (fun r => !(recBlocklisted db r)) := by
            apply List.filter_congr
            intro r _
            rw [hdb2 r]
          have hfiltEq2 : rest.filter
              (fun r => recBlocklisted (insert_position
                (upsert_vehicle db ORGANIZATION_ID (rec.external_id.getD "")
                  rec.source_system rec.name rec.vehicle_type now).2
                (recPosRow vid rec)) r) =
              rest.filter (fun r => recBlocklisted db r) := by
            apply List.filter_congr
            intro r _
            rw [hdb2 r]
          refine ⟨?_, ?_⟩
          · have hres := (ih (insert_position
              (upsert_vehicle db ORGANIZATION_ID (rec.external_id.getD "")
                rec.source_system rec.name rec.vehicle_type now).2
              (recPosRow vid rec))).1
            rw [hfiltEq1] at hres
            simp [List.filter_cons, hbl, hres]
          · have hres := (ih (insert_position
              (upsert_vehicle db ORGANIZATION_ID (rec.external_id.getD "")
                rec.source_system rec.name rec.vehicle_type now).2
              (recPosRow vid rec))).2
            rw [hfiltEq2] at hres
            simp [List.filter_cons, hbl, hres]

/-! ### Nearest-job lemmas -/

theorem foldl_scan_filter (dist : ℚ → ℚ → ℚ → ℚ → ℚ) (vlat vlon : ℚ) :
    ∀ (jobs : List Job) (acc : Option (Job × ℚ)),
      jobs.foldl (nearStep dist vlat vlon) acc =
      (jobs.filter hasCoords).foldl (scanStep (jobDist dist vlat vlon)) acc := by
  intro jobs
  induction jobs with
  | nil => intro acc; rfl
  | cons j t ih =>
      intro acc
      rcases hja : j.latitude with _ | a
      · have hfil : List.filter hasCoords (j :: t) = List.filter hasCoords t := by
          simp [List.filter_cons, hasCoords, hja]
        have hskip : nearStep dist vlat vlon acc j = acc := by
          simp [nearStep, hja]
        rw [List.foldl_cons, hfil, hskip]
        exact ih acc
      · rcases hjb : j.longitude with _ | b
        · have hfil : List.filter hasCoords (j :: t) = List.filter hasCoords t := by
            simp [List.filter_cons, hasCoords, hja, hjb]
          have hskip : nearStep dist vlat vlon acc j = acc := by
            simp [nearStep, hja, hjb]
          rw [List.foldl_cons, hfil, hskip]
          exact ih acc
        · have hfil : List.filter hasCoords (j :: t) = j :: List.filter hasCoords t := by
            simp [List.filter_cons, hasCoords, hja, hjb]
          have hstep : nearStep dist vlat vlon acc j =
              scanStep (jobDist dist vlat vlon) acc j := by
            cases acc with
            | none => simp [nearStep, scanStep, jobDist, hja, hjb]
            | some p =>
                obtain ⟨bj, bd⟩ := p
                simp [nearStep, scanStep, jobDist, hja, hjb]
          rw [List.foldl_cons, hfil, List.foldl_cons, hstep, ih]

theorem find_nearest_job_filter (dist : ℚ → ℚ → ℚ → ℚ → ℚ) (vlat vlon : ℚ)
    (jobs : List Job) (maxD : ℚ) :
    find_nearest_job dist vlat vlon jobs maxD =
      match (jobs.filter hasCoords).foldl (scanStep (jobDist dist vlat vlon)) none with
      | some (bj, bd) => if bd ≤ maxD then some bj else none
      | none => none := by
  simp only [find_nearest_job]
  rw [foldl_scan_filter]

theorem scan_some (d : Job → ℚ) :
    ∀ (l : List Job) (b : Job),
      l.foldl (scanStep d) (some (b, d b)) =
        some (winner d b l, d (winner d b l)) := by
  intro l
  induction l with
  | nil => intro b; rfl
  | cons x xs ih =>
      intro b
      by_cases h : d x < d b <;> simp [scanStep, winner, h, ih]

theorem winner_min (d : Job → ℚ) :
    ∀ (l : List Job) (b : Job),
      d (winner d b l) ≤ d b ∧ ∀ x ∈ l, d (winner d b l) ≤ d x := by
  intro l
  induction l with
  | nil => intro b; exact ⟨le_refl _, by simp⟩
  | cons x xs ih =>
      intro b
      by_cases h : d x < d b
      · have hw : winner d b (x :: xs) = winner d x xs := by simp [winner, h]
        rw [hw]
        refine ⟨le_of_lt (lt_of_le_of_lt (ih x).1 h), ?_⟩
        intro y hy
        rcases List.mem_cons.mp hy with h1 | h1
        · rw [h1]
          exact (ih x).1
        · exact (ih x).2 y h1
      · have hw : winner d b (x :: xs) = winner d b xs := by simp [winner, h]
        rw [hw]
        refine ⟨(ih b).1, ?_⟩
        intro y hy
        rcases List.mem_cons.mp hy with h1 | h1
        · rw [h1]
          exact le_trans (ih b).1 (le_of_not_lt h)
        · exact (ih b).2 y h1

theorem winner_mem (d : Job → ℚ) :
    ∀ (l : List Job) (b : Job), winner d b l ∈ b :: l := by
  intro l
  induction l with
  | nil => intro b; exact List.mem_cons_self _ _
  | cons x xs ih =>
      intro b
      have hw : winner d b (x :: xs) = winner d (if d x < d b then x else b) xs := rfl
      rw [hw]
      rcases List.mem_cons.mp (ih (if d x < d b then x else b)) with h1 | h1
      · rw [h1]
        by_cases h : d x < d b <;> simp [h]
      · exact List.mem_cons_of_mem _ (List.mem_cons_of_mem _ h1)

theorem winner_first (d : Job → ℚ) :
    ∀ (l : List Job) (b : Job),
      ∃ pre post, b :: l = pre ++ winner d b l :: post ∧
        ∀ x ∈ pre, d (winner d b l) < d x := by
  intro l
  induction l with
  | nil => intro b; exact ⟨[], [], rfl, by simp⟩
  | cons x xs ih =>
      intro b
      by_cases h : d x < d b
      · obtain ⟨pre, post, hdec, hpre⟩ := ih x
        have hw : winner d b (x :: xs) = winner d x xs := by simp [winner, h]
        refine ⟨b :: pre, post, ?_, ?_⟩
        · rw [hw, List.cons_append, ← hdec]
        · intro y hy
          rw [hw]
          rcases List.mem_cons.mp hy with h1 | h1
          · subst h1
            exact lt_of_le_of_lt ((winner_min d xs x).1) h
          · exact hpre y h1
      · obtain ⟨pre, post, hdec, hpre⟩ := ih b
        have hw : winner d b (x :: xs) = winner d b xs := by simp [winner, h]
        cases pre with
        | nil =>
            simp only [List.nil_append] at hdec
            obtain ⟨hb, hpost⟩ := List.cons_eq_cons.mp hdec
            refine ⟨[], x :: xs, ?_, by simp⟩
            rw [hw, ← hb]
            rfl
        | cons p0 pre2 =>
            have hdec2 : b :: xs = p0 :: (pre2 ++ winner d b xs :: post) := by
              simpa using hdec
            obtain ⟨hp0, htail⟩ := List.cons_eq_cons.mp hdec2
            have hwb : d (winner d b xs) < d b := by
              have h2 := hpre p0 (List.mem_cons_self _ _)
              rw [← hp0] at h2
              exact h2
            refine ⟨b :: x :: pre2, post, ?_, ?_⟩
            · rw [hw]
              simp only [List.cons_append]
              rw [← htail]
            · intro y hy
              rw [hw]
              rcases List.mem_cons.mp hy with h1 | h1
              · subst h1
                exact hwb
              · rcases List.mem_cons.mp h1 with h2 | h2
                · subst h2
                  exact lt_of_lt_of_le hwb (le_of_not_lt h)
                · exact hpre y (List.mem_cons_of_mem _ h2)

theorem nearest_core (d : Job → ℚ) (wc : List Job) (maxD : ℚ) :
    ((∀ j ∈ wc, maxD < d j) →
       (match wc.foldl (scanStep d) none with
        | some (bj, bd) => if bd ≤ maxD then some bj else none
        | none => none) = none) ∧
    ((∃ j ∈ wc, d j ≤ maxD) →
       ∃ w pre post, wc = pre ++ w :: post ∧
         (match wc.foldl (scanStep d) none with
          | some (bj, bd) => if bd ≤ maxD then some bj else none
          | none => none) = some w ∧
         d w ≤ maxD ∧
         (∀ x ∈ wc, d w ≤ d x) ∧
         (∀ x ∈ pre, d w < d x)) := by
  cases wc with
  | nil =>
      refine ⟨fun _ => rfl, ?_⟩
      rintro ⟨j, hj, _⟩
      simp at hj
  | cons h t =>
      have hfold : (h :: t).foldl (scanStep d) none =
          some (winner d h t, d (winner d h t)) := by
        rw [List.foldl_cons]
        have hone : scanStep d none h = some (h, d h) := rfl
        rw [hone, scan_some]
      constructor
      · intro hall
        rw [hfold]
        simp only
        rw [if_neg (not_le.mpr (hall _ (winner_mem d t h)))]
      · rintro ⟨j, hj, hje⟩
        obtain ⟨pre, post, hdec, hpre⟩ := winner_first d t h
        have hmin := winner_min d t h
        have hminall : ∀ x ∈ h :: t, d (winner d h t) ≤ d x := by
          intro x hx
          rcases List.mem_cons.mp hx with h1 | h1
          · subst h1
            exact hmin.1
          · exact hmin.2 x h1
        have hwle : d (winner d h t) ≤ maxD := le_trans (hminall j hj) hje
        refine ⟨winner d h t, pre, post, hdec, ?_, hwle, hminall, hpre⟩
        rw [hfold]
        simp only
        rw [if_pos hwle]

/-- Claim C5: when the nearest coordinate-bearing site (under the scan's
distance function) is farther than the supplied maximum, the match is
absent (the unassigned bucket), never a closest-but-too-far site; when
some site is within the maximum, the returned site is a minimizer of the
distance and every site scanned before it is strictly farther (the first
site attaining the minimum wins ties). -/
theorem find_nearest_job_spec (dist : ℚ → ℚ → ℚ → ℚ → ℚ) (vlat vlon : ℚ)
    (jobs : List Job) (maxD : ℚ) :
    ((∀ j ∈ jobs.filter hasCoords, maxD < jobDist dist vlat vlon j) →
       find_nearest_job dist vlat vlon jobs maxD = none) ∧
    ((∃ j ∈ jobs.filter hasCoords, jobDist dist vlat vlon j ≤ maxD) →
       ∃ w pre post, jobs.filter hasCoords = pre ++ w :: post ∧
         find_nearest_job dist vlat vlon jobs maxD = some w ∧
         jobDist dist vlat vlon w ≤ maxD ∧
         (∀ x ∈ jobs.filter hasCoords, jobDist dist vlat vlon w ≤ jobDist dist vlat vlon x) ∧
         (∀ x ∈ pre, jobDist dist vlat vlon w < jobDist dist vlat vlon x)) := by
  have hcore := nearest_core (jobDist dist vlat vlon) (jobs.filter hasCoords) maxD
  constructor
  · intro hall
    rw [find_nearest_job_filter]
    exact hcore.1 hall
  · intro hex
    obtain ⟨w, pre, post, hdec, heq, hle, hminall, hpre⟩ := hcore.2 hex
    refine ⟨w, pre, post, hdec, ?_, hle, hminall, hpre⟩
    rw [find_nearest_job_filter]
    exact heq

/-- Witness for C5: sites at (0,0) and (1,1) with the vehicle at
(0.1, 0.1) under a squared-Euclidean metric: with a maximum smaller
than the distance to (0,0) the result is absent; with a generous
maximum the site at (0,0) is returned. -/
theorem find_nearest_job_spec_witness :
    find_nearest_job distW (1/10) (1/10) [jobW0, jobW1] (1/1000) = none ∧
    find_nearest_job distW (1/10) (1/10) [jobW0, jobW1] 1 = some jobW0 := by
  constructor
  · refine (find_nearest_job_spec distW (1/10) (1/10) [jobW0, jobW1] (1/1000)).1 ?_
    intro j hj
    have hj2 : j = jobW0 ∨ j = jobW1 := by
      have : j ∈ [jobW0, jobW1] := List.mem_of_mem_filter hj
      simpa using this
    rcases hj2 with h | h <;> subst h <;> norm_num [jobDist, distW, jobW0, jobW1]
  · norm_num [find_nearest_job, nearStep, List.foldl, jobW0, jobW1, distW]

end VehicleTracker
